import Mathlib

/-!
Verification development for the multi-provider AI orchestration layer
(`plugins/aiproxy-common` and `plugins/braintrust/scripts`).

The Rust sources are shallowly embedded:
* byte/char streams become `List Char` (the SSE framer) or `List Nat`
  (UTF-8 byte strings where byte offsets matter);
* `serde_json::Value` becomes the inductive `Json` below; the decoders are
  modelled as functions of the already-parsed value, since the decoders
  themselves only inspect the parsed structure;
* stateful Rust structs become Lean structures with explicit state passing;
* fallible code returns `Option`/`Except`; a Rust panic is `Option.none`.

Hash maps (`HashMap`/`HashSet`) are modelled as association lists with
insert-overwrite semantics; Rust's arbitrary iteration order is modelled as
list order, which no theorem below depends on.
-/

namespace AIProxy

-- ============================================================================
-- sse/mod.rs — StopReason, StreamAction, SseEvent
-- ============================================================================

/-- `StopReason` from `aiproxy-common/src/sse/mod.rs`. -/
inductive StopReason where
  | endTurn
  | toolUse
  | maxTokens
  | unknown
deriving DecidableEq, Repr

/-- `StreamAction` from `aiproxy-common/src/sse/mod.rs` — the normalized
action type shared by all provider decoders. -/
inductive StreamAction where
  | textDelta (index : Nat) (text : String)
  | toolUseStart (index : Nat) (id : String) (name : String)
      (thought_signature : Option String)
  | inputJsonDelta (index : Nat) (partial_json : String)
  | inputJsonFinal (index : Nat) (json : String)
  | contentBlockStop (index : Nat)
  | messageComplete (stop_reason : StopReason)
  | error (msg : String)
  | ping
deriving DecidableEq, Repr

/-- `SseEvent` from `aiproxy-common/src/sse/mod.rs`. -/
structure SseEvent where
  event_type : String
  data : String
deriving DecidableEq, Repr

-- ============================================================================
-- sse/streaming.rs — StreamAccumulator
-- ============================================================================

/-- One entry of `StreamAccumulator::tool_calls`: the Rust tuple
`(index, id, name, args_buffer, thought_signature)`. -/
structure ToolSlot where
  index : Nat
  id : String
  name : String
  args : String
  thought_signature : Option String
deriving DecidableEq, Repr

/-- `ToolCall` from `aiproxy-common/src/sse/streaming.rs`. -/
structure ToolCall where
  id : String
  name : String
  arguments : String
  thought_signature : Option String
deriving DecidableEq, Repr

/-- `StreamResult` from `aiproxy-common/src/sse/streaming.rs`. -/
structure StreamResult where
  response_id : Option String
  text : String
  tool_calls : List ToolCall
  stop_reason : StopReason
deriving DecidableEq, Repr

/-- `StreamAccumulator` from `aiproxy-common/src/sse/streaming.rs`. -/
structure StreamAccumulator where
  text : String
  tool_calls : List ToolSlot
  stop_reason : StopReason
  response_id : Option String
  had_error : Bool
deriving DecidableEq, Repr

/-- `StreamAccumulator::new`. -/
def StreamAccumulator.new : StreamAccumulator :=
  { text := "", tool_calls := [], stop_reason := .unknown,
    response_id := none, had_error := false }

/-- Update the LAST element of a list satisfying `p` (the in-place mutation
through `iter_mut().rfind(...)` in `StreamAccumulator::find_tool_call_mut`). -/
def updateLast (p : α → Bool) (f : α → α) : List α → List α
  | [] => []
  | x :: xs =>
      if xs.any p then x :: updateLast p f xs
      else if p x then f x :: xs
      else x :: xs

/-- `StreamAccumulator::process` from `aiproxy-common/src/sse/streaming.rs`. -/
def StreamAccumulator.process (acc : StreamAccumulator) :
    StreamAction → StreamAccumulator
  | .textDelta _ t => { acc with text := acc.text ++ t }
  | .toolUseStart i id name sig =>
      { acc with tool_calls :=
          acc.tool_calls ++ [⟨i, id, name, "", sig⟩] }
  | .inputJsonDelta i pj =>
      { acc with tool_calls :=
          (updateLast (fun tc => tc.index == i)
            (fun tc => { tc with args := tc.args ++ pj }) acc.tool_calls) }
  | .inputJsonFinal i j =>
      { acc with tool_calls :=
          (updateLast (fun tc => tc.index == i)
            (fun tc => { tc with args := j }) acc.tool_calls) }
  | .messageComplete sr => { acc with stop_reason := sr }
  | .contentBlockStop _ => acc
  | .ping => acc
  | .error msg =>
      { acc with
          had_error := true,
          text := if acc.text.isEmpty then "[SSE Error] " ++ msg else acc.text,
          stop_reason := .unknown }

/-- `StreamAccumulator::into_result` from `aiproxy-common/src/sse/streaming.rs`. -/
def StreamAccumulator.intoResult (acc : StreamAccumulator) : StreamResult :=
  let stop_reason :=
    if acc.stop_reason = .unknown ∧ acc.had_error = false then
      if acc.tool_calls ≠ [] then StopReason.toolUse
      else if ¬ acc.text.isEmpty then StopReason.endTurn
      else StopReason.unknown
    else acc.stop_reason
  { response_id := acc.response_id,
    text := acc.text,
    tool_calls := acc.tool_calls.map
      (fun tc => ⟨tc.id, tc.name, tc.args, tc.thought_signature⟩),
    stop_reason := stop_reason }

/-- Fold a whole action sequence through a fresh accumulator (the per-turn
loop in the `stream_*` drivers of `streaming.rs`). -/
def processAll (actions : List StreamAction) : StreamAccumulator :=
  actions.foldl StreamAccumulator.process StreamAccumulator.new

-- ============================================================================
-- sse/mod.rs — SseParser (the framer)
-- ============================================================================
-- Chunks are modelled as `List Char`, i.e. the text obtained from the bytes
-- by `String::from_utf8_lossy`.  The lossy UTF-8 decoding step itself is
-- outside the model; a "split" of a char list corresponds to a byte split on
-- a UTF-8 character boundary.

/-- The first `replace("\r\n", "\n")` pass of `SseParser::feed`
(left-to-right, non-overlapping, exactly as `str::replace`). -/
def replaceCRLF : List Char → List Char
  | [] => []
  | '\r' :: '\n' :: rest => '\n' :: replaceCRLF rest
  | c :: rest => c :: replaceCRLF rest

/-- The second `replace('\r', "\n")` pass composed after the first:
the whole newline normalization of `SseParser::feed`. -/
def normalizeText (s : List Char) : List Char :=
  (replaceCRLF s).map (fun c => if c = '\r' then '\n' else c)

/-- The `while let Some(pos) = self.buffer.find("\n\n")` extraction loop of
`SseParser::feed`: repeatedly split off the prefix before the first `"\n\n"`
as a raw record, dropping the two-newline separator; returns the records in
order together with the remaining buffer.  Written as a single left-to-right
scan, which is equivalent to repeated first-occurrence search (proved in
`splitRecs_find_spec` below). -/
def splitRecs : List Char → List (List Char) × List Char
  | [] => ([], [])
  | '\n' :: '\n' :: rest => ([] :: (splitRecs rest).1, (splitRecs rest).2)
  | c :: rest =>
      match splitRecs rest with
      | ([], t) => ([], c :: t)
      | (r :: rs', t) => ((c :: r) :: rs', t)

/-- Index of the first occurrence of `"\n\n"` (Rust `str::find("\n\n")`). -/
def findNN : List Char → Option Nat
  | '\n' :: '\n' :: _ => some 0
  | _ :: rest => (findNN rest).map (· + 1)
  | [] => none

/-- Drop `p` from the front of `l` if `p` is a prefix of `l`
(Rust `str::strip_prefix`). -/
def stripPref (p l : List Char) : Option (List Char) :=
  if p.isPrefixOf l then some (l.drop p.length) else none

/-- Rust `str::lines` on an (already `\r`-free, see `normalizeText`) record:
split on `'\n'`, with no trailing empty line for a trailing newline.  The
per-line trailing-`'\r'` strip of `str::lines` is included for faithfulness
even though normalized buffers contain no `'\r'`. -/
def rustLines (s : List Char) : List (List Char) :=
  if s = [] then []
  else
    let parts := (s.splitOn '\n').map
      (fun l => if l.getLast? = some '\r' then l.dropLast else l)
    if s.getLast? = some '\n' then parts.dropLast else parts

/-- Rust `str::trim` (restricted to the ASCII whitespace relevant here;
`Char.isWhitespace` covers space, tab, CR, LF). -/
def trimChars (s : List Char) : List Char :=
  ((s.dropWhile Char.isWhitespace).reverse.dropWhile Char.isWhitespace).reverse

/-- The per-line state update inside `SseParser::parse_raw_event`:
`event: ` lines set the (trimmed) event type, `data: ` / `data:` lines set
the data; all other lines are ignored. -/
def parseLine (st : List Char × List Char) (line : List Char) :
    List Char × List Char :=
  match stripPref "event: ".toList line with
  | some v => (trimChars v, st.2)
  | none =>
    match stripPref "data: ".toList line with
    | some v => (st.1, v)
    | none =>
      if ("data:".toList).isPrefixOf line then (st.1, line.drop 5)
      else st

/-- `SseParser::parse_raw_event` from `aiproxy-common/src/sse/mod.rs`. -/
def parseRawEvent (raw : List Char) : Option SseEvent :=
  let (et, d) := (rustLines raw).foldl parseLine ([], [])
  if et = [] ∧ d = [] then none
  else some ⟨String.mk et, String.mk d⟩

/-- `SseParser` (its only field is the carried-over text buffer). -/
structure SseParserState where
  buffer : List Char
deriving DecidableEq, Repr

/-- `SseParser::new`. -/
def SseParserState.new : SseParserState := ⟨[]⟩

/-- `SseParser::feed` from `aiproxy-common/src/sse/mod.rs`: normalize the
chunk, append it to the buffer, and split off all complete records. -/
def SseParserState.feed (st : SseParserState) (chunk : List Char) :
    List SseEvent × SseParserState :=
  let (recs, rest) := splitRecs (st.buffer ++ normalizeText chunk)
  (recs.filterMap parseRawEvent, ⟨rest⟩)

/-- `SseParser::flush` from `aiproxy-common/src/sse/mod.rs`. -/
def SseParserState.flush (st : SseParserState) :
    List SseEvent × SseParserState :=
  let trimmed := trimChars st.buffer
  (if trimmed = [] then [] else (parseRawEvent trimmed).toList, ⟨[]⟩)

-- ============================================================================
-- serde_json::Value model
-- ============================================================================

/-- A `serde_json::Value`.  Objects are association lists (serde's map with
its iteration order); numbers are modelled as integers, which covers every
numeric field the decoders inspect. -/
inductive Json where
  | null
  | bool (b : Bool)
  | num (n : Int)
  | str (s : String)
  | arr (elems : List Json)
  | obj (fields : List (String × Json))
deriving Repr, BEq

/-- `Value::get(key)` on objects (`None` on any other variant). -/
def Json.getObj : Json → String → Option Json
  | .obj fields, k => fields.lookup k
  | _, _ => none

/-- `Value::get(index)` on arrays (`None` on any other variant). -/
def Json.getIdx : Json → Nat → Option Json
  | .arr elems, i => elems.get? i
  | _, _ => none

/-- `Value::as_str`. -/
def Json.asStr : Json → Option String
  | .str s => some s
  | _ => none

/-- `Value::as_array`. -/
def Json.asArr : Json → Option (List Json)
  | .arr elems => some elems
  | _ => none

/-- Minimal JSON string escaping used by `Json.serialize`
(`serde_json::to_string`); covers quote, backslash and the common control
characters — sufficient for every value the claims touch. -/
def jsonEscape (s : String) : String :=
  s.toList.foldl
    (fun acc c =>
      acc ++
        (if c = '"' then "\\\""
         else if c = '\\' then "\\\\"
         else if c = '\n' then "\\n"
         else if c = '\t' then "\\t"
         else if c = '\r' then "\\r"
         else String.mk [c]))
    ""

mutual

/-- `serde_json::to_string` (compact form). -/
def Json.serialize : Json → String
  | .null => "null"
  | .bool true => "true"
  | .bool false => "false"
  | .num n => toString n
  | .str s => "\"" ++ jsonEscape s ++ "\""
  | .arr elems => "[" ++ Json.serializeList elems ++ "]"
  | .obj fields => "\x7b" ++ Json.serializeFields fields ++ "\x7d"

def Json.serializeList : List Json → String
  | [] => ""
  | [x] => Json.serialize x
  | x :: xs => Json.serialize x ++ "," ++ Json.serializeList xs

def Json.serializeFields : List (String × Json) → String
  | [] => ""
  | [(k, v)] => "\"" ++ jsonEscape k ++ "\":" ++ Json.serialize v
  | (k, v) :: xs =>
      "\"" ++ jsonEscape k ++ "\":" ++ Json.serialize v ++ "," ++
        Json.serializeFields xs

end

-- ============================================================================
-- braintrust/scripts/src/sse/openai.rs — parse_openai_chat_sse
-- ============================================================================

/-- The `data` payload of a Chat-Completions SSE event as the decoder sees
it: the literal `"[DONE]"` sentinel, a string `serde_json` fails to parse,
or the parsed value.  (`serde_json::from_str` itself is outside the model.) -/
inductive ChatEventData where
  | done
  | unparseable
  | parsed (j : Json)
deriving Repr

/-- The `finish_reason` match inside `parse_openai_chat_sse`. -/
def chatFinishMap (finish : String) : StopReason :=
  if finish = "stop" then .endTurn
  else if finish = "length" then .maxTokens
  else .unknown

/-- `parse_openai_chat_sse` from `braintrust/scripts/src/sse/openai.rs`.
Returns at most ONE action per event (the Rust signature is
`Option<StreamAction>`). -/
def parseOpenaiChatSse (d : ChatEventData) : Option StreamAction :=
  match d with
  | .done => some (.messageComplete .endTurn)
  | .unparseable => none
  | .parsed data =>
    match data.getObj "error" with
    | some err =>
        some (.error (((err.getObj "message").bind Json.asStr).getD
          "Unknown OpenAI chat SSE error"))
    | none =>
      match (data.getObj "choices").bind (fun c => c.getIdx 0) with
      | none => none
      | some choice =>
        match choice.getObj "delta" with
        | none => none
        | some delta =>
          match (delta.getObj "content").bind Json.asStr with
          | some content =>
              if ¬ content.isEmpty then some (.textDelta 0 content)
              else
                match (choice.getObj "finish_reason").bind Json.asStr with
                | some finish => some (.messageComplete (chatFinishMap finish))
                | none => none
          | none =>
            match (choice.getObj "finish_reason").bind Json.asStr with
            | some finish => some (.messageComplete (chatFinishMap finish))
            | none => none

-- ============================================================================
-- aiproxy-common/src/sse/gemini.rs — GeminiSseState and parse_gemini_sse
-- ============================================================================

/-- Insert-or-overwrite on an association list (`HashMap::insert`). -/
def alistInsert (k : Nat) (v : α) : List (Nat × α) → List (Nat × α)
  | [] => [(k, v)]
  | (k', v') :: rest =>
      if k' = k then (k, v) :: rest else (k', v') :: alistInsert k v rest

/-- Insert-if-absent on a list used as a set (`HashSet::insert`). -/
def setInsert (k : Nat) (s : List Nat) : List Nat :=
  if k ∈ s then s else s ++ [k]

/-- `GeminiSseState` from `aiproxy-common/src/sse/gemini.rs`. -/
structure GeminiSseState where
  part_to_index : List (Nat × Nat)
  text_parts : List Nat
  known_function_calls : List (Nat × String)
  thought_signatures : List (Nat × String)
  next_index : Nat
deriving Repr

/-- `GeminiSseState::new`. -/
def GeminiSseState.new : GeminiSseState := ⟨[], [], [], [], 0⟩

/-- Stand-in for `uuid::Uuid::new_v4().to_string()`: a deterministic fresh
token derived from the allocation counter.  No claim depends on the id
values, only on their placement. -/
def freshCallId (n : Nat) : String := "uuid-" ++ toString n

/-- Processing of one element of `candidates[0].content.parts` inside
`parse_gemini_sse` (the body of the `for (part_idx, part)` loop): first the
text branch, then the function-call branch, threading the state. -/
def geminiProcessPart (part_idx : Nat) (part : Json)
    (st : GeminiSseState) : List StreamAction × GeminiSseState :=
  -- Text part — INCREMENTAL
  let (textActs, st) :=
    match (part.getObj "text").bind Json.asStr with
    | some text =>
        if ¬ text.isEmpty then
          let st :=
            if part_idx ∉ st.text_parts then
              { st with
                  part_to_index := alistInsert part_idx st.next_index
                    st.part_to_index,
                  text_parts := setInsert part_idx st.text_parts,
                  next_index := st.next_index + 1 }
            else st
          let index := (st.part_to_index.lookup part_idx).getD part_idx
          ([StreamAction.textDelta index text], st)
        else ([], st)
    | none => ([], st)
  -- Function call part
  match part.getObj "functionCall" with
  | some fc =>
      let name := ((fc.getObj "name").bind Json.asStr).getD ""
      if ¬ name.isEmpty ∧ st.known_function_calls.lookup part_idx = none then
        let index := st.next_index
        let id := freshCallId index
        let thought_signature :=
          (part.getObj "thoughtSignature").bind Json.asStr
        let st' :=
          { st with
              known_function_calls := alistInsert part_idx id
                st.known_function_calls,
              part_to_index := alistInsert part_idx index st.part_to_index,
              thought_signatures :=
                (match thought_signature with
                 | some sig => alistInsert part_idx sig st.thought_signatures
                 | none => st.thought_signatures),
              next_index := st.next_index + 1 }
        let args := (fc.getObj "args").getD (Json.obj [])
        (textActs ++
          [StreamAction.toolUseStart index id name thought_signature,
           StreamAction.inputJsonDelta index args.serialize], st')
      else (textActs, st)
  | none => (textActs, st)

/-- The `for (part_idx, part) in parts.iter().enumerate()` loop of
`parse_gemini_sse`. -/
def geminiProcessParts (part_idx : Nat) (parts : List Json)
    (st : GeminiSseState) : List StreamAction × GeminiSseState :=
  match parts with
  | [] => ([], st)
  | p :: rest =>
      let (acts, st') := geminiProcessPart part_idx p st
      let (acts', st'') := geminiProcessParts (part_idx + 1) rest st'
      (acts ++ acts', st'')

/-- The `finish_reason` match inside `parse_gemini_sse` (before the
tool-call override).  The `SAFETY`-family arms log a warning and map to
`EndTurn`. -/
def geminiFinishMap (finish : String) : StopReason :=
  if finish = "STOP" then .endTurn
  else if finish = "MAX_TOKENS" then .maxTokens
  else if finish = "SAFETY" ∨ finish = "RECITATION" ∨
      finish = "PROHIBITED_CONTENT" ∨ finish = "BLOCKLIST" then .endTurn
  else .unknown

/-- `parse_gemini_sse` from `aiproxy-common/src/sse/gemini.rs`.  The input
is the event's `data` after `serde_json::from_str` (`none` = parse failure,
which the source answers with no actions). -/
def parseGeminiSse (data : Option Json) (st : GeminiSseState) :
    List StreamAction × GeminiSseState :=
  match data with
  | none => ([], st)
  | some d =>
    match d.getObj "error" with
    | some err =>
        ([.error (((err.getObj "message").bind Json.asStr).getD
          "Unknown Gemini error")], st)
    | none =>
      match (d.getObj "candidates").bind (fun c => c.getIdx 0) with
      | none => ([], st)
      | some candidate =>
        let finish_reason :=
          ((candidate.getObj "finishReason").bind Json.asStr).getD ""
        let parts :=
          ((candidate.getObj "content").bind
            (fun c => c.getObj "parts")).bind Json.asArr
        let (partActs, st') :=
          match parts with
          | some ps => geminiProcessParts 0 ps st
          | none => ([], st)
        if ¬ finish_reason.isEmpty then
          let textStops := st'.text_parts.map
            (fun p => StreamAction.contentBlockStop
              ((st'.part_to_index.lookup p).getD p))
          let fcStops := st'.known_function_calls.filterMap
            (fun pv => (st'.part_to_index.lookup pv.1).map
              (fun i => StreamAction.contentBlockStop i))
          let stop_reason := geminiFinishMap finish_reason
          let final_stop :=
            if st'.known_function_calls ≠ [] then StopReason.toolUse
            else stop_reason
          (partActs ++ textStops ++ fcStops ++
            [StreamAction.messageComplete final_stop], st')
        else (partActs, st')

-- ============================================================================
-- aiproxy-common/src/session.rs — ParticipantSession, summarize_args
-- ============================================================================

/-- `ParticipantStep` from `aiproxy-common/src/session.rs`. -/
structure ParticipantStep where
  step : Nat
  step_type : String
  tool_name : Option String
  tool_input : Option Json
  tool_output : Option String
  tool_error : Option String
  content : Option String
  timestamp : Nat
deriving Repr

/-- `ParticipantSession` from `aiproxy-common/src/session.rs` (the type the
braintrust orchestrator uses). -/
structure ParticipantSession where
  provider : String
  model : String
  steps : List ParticipantStep
  final_content : String
  success : Bool
  error : Option String
deriving Repr

/-- `ParticipantSession::new`. -/
def ParticipantSession.new (provider model : String) : ParticipantSession :=
  { provider := provider, model := model, steps := [],
    final_content := "", success := false, error := none }

/-- `ParticipantSession::finalize`. -/
def ParticipantSession.finalize (s : ParticipantSession)
    (final_content : String) (success : Bool) (error : Option String) :
    ParticipantSession :=
  { s with final_content := final_content, success := success, error := error }

/-- Rust `str::is_char_boundary i` on a UTF-8 byte string: `i` is `0`, the
length, or indexes a byte that is not a continuation byte (`0x80..0xBF`). -/
def isCharBoundary (s : List Nat) (i : Nat) : Bool :=
  i == 0 || i == s.length ||
    (match s.get? i with
     | some b => ! (128 ≤ b && b < 192)
     | none => false)

/-- `summarize_args` from `aiproxy-common/src/session.rs`, at the byte level
(`s.len()` and `&s[..max_len]` are byte-indexed in Rust).  Slicing a string
at a non-character-boundary index panics, modelled as `none`; the `"..."`
suffix is the three bytes `46`. -/
def summarizeArgs (s : List Nat) (maxLen : Nat) : Option (List Nat) :=
  if s.length ≤ maxLen then some s
  else if isCharBoundary s maxLen then some (s.take maxLen ++ [46, 46, 46])
  else none

-- ============================================================================
-- braintrust/scripts/src/orchestrator.rs — run_participant_with_retry
-- ============================================================================

/-- `MAX_RETRIES` from `braintrust/scripts/src/orchestrator.rs`. -/
def MAX_RETRIES : Nat := 3

/-- The `for attempt in 0..MAX_RETRIES` loop of `run_participant_with_retry`,
with the per-attempt provider call abstracted as the oracle `attempts`
(`Ok` = the tool loop returned a session, `Err` = it failed).  `remaining`
is `MAX_RETRIES - attempt`; the backoff sleeps and debug logging have no
bearing on the returned value and are omitted.  When the loop ends without
a success the function builds a failed session from the last error instead
of propagating it (graceful degradation). -/
def retryGo (provider : String)
    (attempts : Nat → Except String ParticipantSession) :
    Nat → Nat → Option String → Except String ParticipantSession
  | 0, _, lastError =>
      let errMsg := lastError.getD "Unknown error"
      .ok ((ParticipantSession.new provider "unknown").finalize
        ("[" ++ provider ++ " failed after " ++ toString MAX_RETRIES ++
          " retries: " ++ errMsg ++ "]") false (some errMsg))
  | remaining + 1, attempt, _lastError =>
      if provider = "openai" ∨ provider = "gemini" ∨ provider = "claude" then
        match attempts attempt with
        | .ok s => .ok s
        | .error e => retryGo provider attempts remaining (attempt + 1) (some e)
      else .error ("Unknown provider: " ++ provider)
  termination_by n => n

/-- `run_participant_with_retry` from `braintrust/scripts/src/orchestrator.rs`
(value-level model; see `retryGo`). -/
def runParticipantWithRetry (provider : String)
    (attempts : Nat → Except String ParticipantSession) :
    Except String ParticipantSession :=
  retryGo provider attempts MAX_RETRIES 0 none

/-- The round assembly in `run_braintrust` (orchestrator.rs lines 84–117):
the three participant results are `?`-unwrapped and collected positionally
into `participant_sessions = vec![gpt, gemini, claude]`. -/
def buildIterationSessions
    (gptResult geminiResult claudeResult :
      Except String ParticipantSession) :
    Except String (List ParticipantSession) := do
  let gpt ← gptResult
  let gemini ← geminiResult
  let claude ← claudeResult
  pure [gpt, gemini, claude]

-- ============================================================================
-- Read-tool path validation
--   aiproxy-common/src/tools/mod.rs  (is_denied_path, execute_tool_inner)
--   braintrust/scripts/src/tools/read.rs  (read_file path resolution)
-- ============================================================================

/-- An OS path: an absolute flag plus the component names (the strings
`Path::components` yields, `".."` and `"."` included). -/
structure RPath where
  absolute : Bool
  components : List String
deriving DecidableEq, Repr

/-- `DENY_BASENAMES` from `tools/mod.rs`. -/
def DENY_BASENAMES : List String :=
  [".git", ".svn", ".hg", "node_modules", "venv", "__pycache__",
   ".env", ".DS_Store", "Thumbs.db"]

/-- `DENY_EXTENSIONS` from `tools/mod.rs`. -/
def DENY_EXTENSIONS : List String :=
  ["pyc", "pyo", "so", "dll", "dylib", "exe", "bin", "class", "jar",
   "sqlite", "db", "lock"]

/-- Rust `Path::extension` of a file name: the part after the last `'.'`,
provided some earlier character exists (so `".env"` has no extension). -/
def rustExtension (name : List Char) : Option (List Char) :=
  match name with
  | [] => none
  | _ :: rest =>
      if '.' ∈ rest then
        some ((rest.reverse.takeWhile (· ≠ '.')).reverse)
      else none

/-- `Path::extension` of a whole path: taken from the final component when
it is a normal file name (`".."` and `"."` have no file name). -/
def pathExtension (p : RPath) : Option String :=
  match p.components.getLast? with
  | none => none
  | some name =>
      if name = ".." ∨ name = "." then none
      else (rustExtension name.toList).map String.mk

/-- `is_denied_path` from `aiproxy-common/src/tools/mod.rs`: any component
equal to a denied basename, or a denied file extension. -/
def isDeniedPath (p : RPath) : Bool :=
  p.components.any (fun c => DENY_BASENAMES.contains c) ||
    (match pathExtension p with
     | some ext => DENY_EXTENSIONS.contains ext
     | none => false)

/-- `validate_relative_path` from `aiproxy-common/src/tools/mod.rs` —
rejects any path containing the substring `".."` or any absolute path.
In `execute_tool_inner` it is applied ONLY to the `Glob` pattern, not to
the `Read` path. -/
def validateRelativePath (p : RPath) : Bool :=
  ¬ (p.components.any (fun c => ".." = c)) ∧ p.absolute = false

/-- Lexical kernel of `std::fs::canonicalize`: resolve `"."` and `".."`
components of an absolute component list left to right, `".."` popping the
previous component (`".."` at the root stays at the root, as on POSIX).
Symlinks are assumed absent and the path existing — `canonicalize`
otherwise errors, which would also mean the file is never opened. -/
def canonicalizeAbs (comps : List String) : List String :=
  (comps.foldl
    (fun stack c =>
      if c = "." then stack
      else if c = ".." then stack.dropLast
      else stack ++ [c])
    [])

/-- The path-resolution part of `read_file`
(`braintrust/scripts/src/tools/read.rs` lines 14–29): resolve relative
paths against the project root, canonicalize, and require the canonical
path to start with the canonical project root.  Returns `true` exactly when
the function proceeds to `fs::File::open`.  `project` is the project root
as absolute components. -/
def readFileAccessGranted (path : RPath) (project : List String) : Bool :=
  let resolved :=
    if path.absolute then path.components else project ++ path.components
  let canonical := canonicalizeAbs resolved
  let projectCanonical := canonicalizeAbs project
  projectCanonical.isPrefixOf canonical

/-- The read-tool pipeline for path checking: the `"Read" | "read_file"`
arm of `execute_tool_inner` applies `is_denied_path` (and nothing else) and
then calls `read_file`, which opens the file iff the canonical containment
check passes.  `true` = the supplied path reaches `File::open`. -/
def readToolOpens (path : RPath) (project : List String) : Bool :=
  ¬ isDeniedPath path ∧ readFileAccessGranted path project

-- ============================================================================
-- Observation helpers used in theorem statements
-- ============================================================================

/-- Is this action a `MessageComplete`? -/
def isMessageComplete : StreamAction → Bool
  | .messageComplete _ => true
  | _ => false

/-- Is this action an `Error`? -/
def isErrorAction : StreamAction → Bool
  | .error _ => true
  | _ => false

/-- Project a `ToolUseStart` to its identifying payload. -/
def toolStartProj : StreamAction → Option (String × String × Option String)
  | .toolUseStart _ id name sig => some (id, name, sig)
  | _ => none

/-- Project a `MessageComplete` to its stop reason. -/
def mcProj : StreamAction → Option StopReason
  | .messageComplete sr => some sr
  | _ => none

/-- The event-type value a single record line contributes (if any), per the
line rules of `parse_raw_event`. -/
def lineEventValue (line : List Char) : Option (List Char) :=
  (stripPref "event: ".toList line).map trimChars

/-- The data value a single record line contributes (if any), per the line
rules of `parse_raw_event`. -/
def lineDataValue (line : List Char) : Option (List Char) :=
  match stripPref "data: ".toList line with
  | some v => some v
  | none =>
      if ("data:".toList).isPrefixOf line then some (line.drop 5) else none

/-- Well-formedness of a Gemini decoder state: every assigned logical index
is below the allocation counter (true of the fresh state and preserved by
the decoder). -/
def GeminiInv (st : GeminiSseState) : Prop :=
  ∀ p i, st.part_to_index.lookup p = some i → i < st.next_index

/-- What one decoder step guarantees about the Gemini state: the counter is
monotone, `known_function_calls` entries persist unchanged, and any
`part_to_index` entry is either inherited or freshly allocated at or above
the old counter (hence above every previously assigned index). -/
def GeminiStep (st st' : GeminiSseState) : Prop :=
  st.next_index ≤ st'.next_index ∧
  (∀ p v, st.known_function_calls.lookup p = some v →
    st'.known_function_calls.lookup p = some v) ∧
  (∀ p i, st'.part_to_index.lookup p = some i →
    st.part_to_index.lookup p = some i ∨ st.next_index ≤ i) ∧
  (GeminiInv st → GeminiInv st')

/-- The failed session `run_participant_with_retry` builds on exhaustion. -/
def exhaustedSession (provider msg : String) : ParticipantSession :=
  (ParticipantSession.new provider "unknown").finalize
    ("[" ++ provider ++ " failed after " ++ toString MAX_RETRIES ++
      " retries: " ++ msg ++ "]") false (some msg)

-- ============================================================================
-- Concrete wire fixtures used in counterexamples and witnesses
-- ============================================================================

/-- A Gemini chunk whose only part is the text `"hi"`. -/
def geminiTextEvent : Json :=
  .obj [("candidates", .arr [.obj [("content",
    .obj [("parts", .arr [.obj [("text", .str "hi")]])])]])]

/-- A Gemini chunk whose only part is a function call named `"f"` — at the
same part ordinal 0 as `geminiTextEvent`'s text part. -/
def geminiFnEvent : Json :=
  .obj [("candidates", .arr [.obj [("content",
    .obj [("parts", .arr [.obj [("functionCall",
      .obj [("name", .str "f")])]])])]])]

/-- A final Gemini chunk: no parts, `finishReason = "STOP"`. -/
def geminiStopEvent : Json :=
  .obj [("candidates", .arr [.obj [("finishReason", .str "STOP")]])]

/-- A Chat-Completions chunk carrying BOTH a non-empty
`choices[0].delta.content` and a non-null `choices[0].finish_reason`. -/
def chatBothEvent : Json :=
  .obj [("choices", .arr [.obj [
    ("delta", .obj [("content", .str "x")]),
    ("finish_reason", .str "stop")]])]

/-- A Chat-Completions chunk with an empty delta and
`finish_reason = "length"`. -/
def chatFinishEvent : Json :=
  .obj [("choices", .arr [.obj [
    ("delta", .obj []),
    ("finish_reason", .str "length")]])]

-- ============================================================================
-- ============================================================================
--                                THEOREMS
-- ============================================================================
-- ============================================================================

-- ----------------------------------------------------------------------------
-- Accumulator lemmas (shared)
-- ----------------------------------------------------------------------------

theorem updateLast_map (g : α → β) (p : α → Bool) (f : α → α)
    (h : ∀ x, g (f x) = g x) (l : List α) :
    (updateLast p f l).map g = l.map g := by
  induction l with
  | nil => rfl
  | cons x xs ih =>
    simp only [updateLast]
    split
    · simp [ih]
    · split <;> simp [h]

theorem foldl_process_tool_calls (l : List StreamAction)
    (acc : StreamAccumulator) :
    ((l.foldl StreamAccumulator.process acc).tool_calls).map
        (fun tc => (tc.id, tc.name, tc.thought_signature)) =
      acc.tool_calls.map (fun tc => (tc.id, tc.name, tc.thought_signature)) ++
        l.filterMap toolStartProj := by
  induction l generalizing acc with
  | nil => simp
  | cons a l ih =>
    cases a with
    | textDelta i t => simp [StreamAccumulator.process, ih, toolStartProj]
    | toolUseStart i id name sig =>
        simp [StreamAccumulator.process, ih, toolStartProj]
    | inputJsonDelta i pj =>
        simp only [List.foldl_cons, StreamAccumulator.process, ih,
          toolStartProj, List.filterMap_cons_none]
        have hu : ∀ (tl : List ToolSlot),
            (updateLast (fun tc => tc.index == i)
              (fun tc => { tc with args := tc.args ++ pj }) tl).map
                (fun tc => (tc.id, tc.name, tc.thought_signature)) =
              tl.map (fun tc => (tc.id, tc.name, tc.thought_signature)) :=
          fun tl => updateLast_map
            (fun tc : ToolSlot => (tc.id, tc.name, tc.thought_signature))
            (fun tc => tc.index == i)
            (fun tc => { tc with args := tc.args ++ pj }) (fun x => rfl) tl
        rw [hu]
    | inputJsonFinal i j =>
        simp only [List.foldl_cons, StreamAccumulator.process, ih,
          toolStartProj, List.filterMap_cons_none]
        have hu : ∀ (tl : List ToolSlot),
            (updateLast (fun tc => tc.index == i)
              (fun tc => { tc with args := j }) tl).map
                (fun tc => (tc.id, tc.name, tc.thought_signature)) =
              tl.map (fun tc => (tc.id, tc.name, tc.thought_signature)) :=
          fun tl => updateLast_map
            (fun tc : ToolSlot => (tc.id, tc.name, tc.thought_signature))
            (fun tc => tc.index == i)
            (fun tc => { tc with args := j }) (fun x => rfl) tl
        rw [hu]
    | contentBlockStop i => simp [StreamAccumulator.process, ih, toolStartProj]
    | messageComplete sr => simp [StreamAccumulator.process, ih, toolStartProj]
    | error m => simp [StreamAccumulator.process, ih, toolStartProj]
    | ping => simp [StreamAccumulator.process, ih, toolStartProj]

theorem foldl_process_no_mc_no_err (l : List StreamAction)
    (acc : StreamAccumulator)
    (h : ∀ a ∈ l, isMessageComplete a = false ∧ isErrorAction a = false) :
    (l.foldl StreamAccumulator.process acc).stop_reason = acc.stop_reason ∧
      (l.foldl StreamAccumulator.process acc).had_error = acc.had_error := by
  induction l generalizing acc with
  | nil => exact ⟨rfl, rfl⟩
  | cons a l ih =>
    have ha := h a (by simp)
    have hl : ∀ a ∈ l, isMessageComplete a = false ∧ isErrorAction a = false :=
      fun a' ha' => h a' (by simp [ha'])
    cases a with
    | textDelta i t => exact ih _ hl
    | toolUseStart i id name sig => exact ih _ hl
    | inputJsonDelta i pj => exact ih _ hl
    | inputJsonFinal i j => exact ih _ hl
    | contentBlockStop i => exact ih _ hl
    | messageComplete sr => simp [isMessageComplete] at ha
    | error m => simp [isErrorAction] at ha
    | ping => exact ih _ hl

theorem foldl_process_error_sticky (l : List StreamAction)
    (acc : StreamAccumulator)
    (h : ∀ a ∈ l, isMessageComplete a = false)
    (hsr : acc.stop_reason = .unknown) (he : acc.had_error = true) :
    (l.foldl StreamAccumulator.process acc).stop_reason = .unknown ∧
      (l.foldl StreamAccumulator.process acc).had_error = true := by
  induction l generalizing acc with
  | nil => exact ⟨hsr, he⟩
  | cons a l ih =>
    have ha := h a (by simp)
    have hl : ∀ a ∈ l, isMessageComplete a = false :=
      fun a' ha' => h a' (by simp [ha'])
    cases a with
    | textDelta i t => exact ih _ hl hsr he
    | toolUseStart i id name sig => exact ih _ hl hsr he
    | inputJsonDelta i pj => exact ih _ hl hsr he
    | inputJsonFinal i j => exact ih _ hl hsr he
    | contentBlockStop i => exact ih _ hl hsr he
    | messageComplete sr => simp [isMessageComplete] at ha
    | error m => exact ih _ hl rfl rfl
    | ping => exact ih _ hl hsr he

-- ----------------------------------------------------------------------------
-- C3 — accumulator preserves tool-call order
-- ----------------------------------------------------------------------------

/-- C3: the `tool_calls` of the `StreamResult` produced by `into_result`
list exactly the processed `ToolUseStart` actions, in processing (wire)
order — no accumulator operation reorders or removes a slot. -/
theorem accumulator_preserves_tool_call_order (actions : List StreamAction) :
    (processAll actions).intoResult.tool_calls.map
        (fun tc => (tc.id, tc.name, tc.thought_signature)) =
      actions.filterMap toolStartProj := by
  have h := foldl_process_tool_calls actions StreamAccumulator.new
  simp only [StreamAccumulator.new, List.map_nil, List.nil_append] at h
  simpa [processAll, StreamAccumulator.intoResult, List.map_map,
    Function.comp] using h

-- ----------------------------------------------------------------------------
-- C8 — read-tool path validation
-- ----------------------------------------------------------------------------

theorem canonicalizeAbs_clean (l : List String) :
    ∀ c ∈ canonicalizeAbs l, c ≠ ".." ∧ c ≠ "." := by
  suffices h : ∀ acc, (∀ c ∈ acc, c ≠ ".." ∧ c ≠ ".") →
      ∀ c ∈ l.foldl
        (fun stack c =>
          if c = "." then stack
          else if c = ".." then stack.dropLast
          else stack ++ [c]) acc, c ≠ ".." ∧ c ≠ "." by
    exact h [] (by simp)
  induction l with
  | nil => intro acc hacc; simpa using hacc
  | cons x xs ih =>
    intro acc hacc
    simp only [List.foldl_cons]
    split
    · exact ih acc hacc
    · split
      · exact ih _ (fun c hc => hacc c (List.dropLast_subset _ hc))
      · rename_i hx1 hx2
        exact ih _ (by
          intro c hc
          rcases List.mem_append.mp hc with h1 | h2
          · exact hacc c h1
          · simp only [List.mem_singleton] at h2
            subst h2
            exact ⟨hx2, hx1⟩)

/-- C8 counterexample: the read tool DOES open a relative path containing a
`".."` segment (when it resolves inside the project) and DOES open an
absolute path (when it lies inside the project) — neither is rejected. -/
theorem read_tool_accepts_dotdot_and_absolute :
    readToolOpens ⟨false, ["src", "..", "README.md"]⟩ ["proj"] = true ∧
      readToolOpens ⟨true, ["proj", "notes.txt"]⟩ ["proj"] = true := by
  decide

/-- C8 amended: the read tool never validates the supplied path as relative
or `".."`-free; instead, whenever it proceeds to open a file, the path has
passed the deny-list and its canonicalized resolution (all `".."`/`"."`
segments eliminated) lies inside the project root. -/
theorem read_tool_containment (path : RPath) (project : List String)
    (h : readToolOpens path project = true) :
    isDeniedPath path = false ∧
      (canonicalizeAbs project).isPrefixOf
        (canonicalizeAbs
          (if path.absolute then path.components
           else project ++ path.components)) = true ∧
      ∀ c ∈ canonicalizeAbs
          (if path.absolute then path.components
           else project ++ path.components), c ≠ ".." := by
  simp only [readToolOpens, readFileAccessGranted, Bool.and_eq_true,
    decide_eq_true_eq] at h
  refine ⟨by simpa using h.1, by simpa using h.2, ?_⟩
  intro c hc
  exact (canonicalizeAbs_clean _ c hc).1

/-- Witness for `read_tool_containment` at a concrete accepted path. -/
theorem read_tool_containment_witness :
    isDeniedPath ⟨false, ["lib.rs"]⟩ = false ∧
      (canonicalizeAbs ["proj"]).isPrefixOf
        (canonicalizeAbs
          (if (⟨false, ["lib.rs"]⟩ : RPath).absolute
           then (⟨false, ["lib.rs"]⟩ : RPath).components
           else ["proj"] ++ (⟨false, ["lib.rs"]⟩ : RPath).components)) = true ∧
      ∀ c ∈ canonicalizeAbs
          (if (⟨false, ["lib.rs"]⟩ : RPath).absolute
           then (⟨false, ["lib.rs"]⟩ : RPath).components
           else ["proj"] ++ (⟨false, ["lib.rs"]⟩ : RPath).components),
        c ≠ ".." :=
  read_tool_containment ⟨false, ["lib.rs"]⟩ ["proj"] (by decide)

-- ----------------------------------------------------------------------------
-- C1 — accumulator fallback stop reason
-- ----------------------------------------------------------------------------

/-- C1 counterexample: a `MessageComplete` processed after an `Error`
overwrites the stored `Unknown`, so the result's stop reason is NOT
`Unknown` even though an Error action was processed. -/
theorem accumulator_error_then_complete :
    (processAll [.error "boom",
      .messageComplete .endTurn]).intoResult.stop_reason = .endTurn ∧
      (processAll [.error "boom",
        .messageComplete .endTurn]).intoResult.stop_reason ≠ .unknown := by
  decide

/-- C1 amended: (a) with no `MessageComplete` and no `Error` processed,
`into_result` infers the stop reason — `ToolUse` if tool calls exist, else
`EndTurn` if text exists, else `Unknown`; (b) after an `Error`, the stop
reason is `Unknown` provided no `MessageComplete` follows that error (a
later `MessageComplete` overwrites it). -/
theorem accumulator_fallback (actions : List StreamAction) :
    ((∀ a ∈ actions, isMessageComplete a = false ∧ isErrorAction a = false) →
      (processAll actions).intoResult.stop_reason =
        (if (processAll actions).intoResult.tool_calls ≠ [] then .toolUse
         else if (processAll actions).intoResult.text.isEmpty = false then
           .endTurn
         else .unknown)) ∧
    (∀ l1 msg l2, actions = l1 ++ StreamAction.error msg :: l2 →
      (∀ a ∈ l2, isMessageComplete a = false) →
      (processAll actions).intoResult.stop_reason = .unknown) := by
  constructor
  · intro h
    have hs := foldl_process_no_mc_no_err actions StreamAccumulator.new h
    have hs1 : (processAll actions).stop_reason = .unknown := hs.1
    have hs2 : (processAll actions).had_error = false := hs.2
    by_cases htc : (processAll actions).tool_calls = []
    · by_cases htx : (processAll actions).text.isEmpty
      · simp [StreamAccumulator.intoResult, hs1, hs2, htc, htx]
      · simp [StreamAccumulator.intoResult, hs1, hs2, htc, htx]
    · simp [StreamAccumulator.intoResult, hs1, hs2, htc]
  · intro l1 msg l2 heq h2
    subst heq
    rw [processAll, List.foldl_append, List.foldl_cons]
    set accErr :=
      StreamAccumulator.process
        (List.foldl StreamAccumulator.process StreamAccumulator.new l1)
        (StreamAction.error msg) with haccErr
    have hsr : accErr.stop_reason = .unknown := rfl
    have hhe : accErr.had_error = true := rfl
    have hf := foldl_process_error_sticky l2 accErr h2 hsr hhe
    rw [StreamAccumulator.intoResult]
    simp only [hf.1, hf.2]
    simp

/-- Witness for `accumulator_fallback`: part (a) at a tool-call-only
sequence, part (b) at a text-then-error sequence. -/
theorem accumulator_fallback_witness :
    ((processAll [.toolUseStart 0 "id1" "Glob" none]).intoResult.stop_reason =
      (if (processAll
            [.toolUseStart 0 "id1" "Glob" none]).intoResult.tool_calls ≠ []
       then .toolUse
       else if (processAll
            [.toolUseStart 0 "id1" "Glob" none]).intoResult.text.isEmpty =
          false then .endTurn
       else .unknown)) ∧
    (processAll [.textDelta 0 "hi",
      .error "boom"]).intoResult.stop_reason = .unknown :=
  ⟨(accumulator_fallback [.toolUseStart 0 "id1" "Glob" none]).1 (by decide),
   (accumulator_fallback [.textDelta 0 "hi", .error "boom"]).2
     [.textDelta 0 "hi"] "boom" [] rfl (by simp)⟩

-- ----------------------------------------------------------------------------
-- C9 — summarize_args panics mid-UTF-8
-- ----------------------------------------------------------------------------

/-- C9: `summarize_args` is NOT total — at the UTF-8 bytes of `"한"`
(`ED 95 9C`) with `max_len = 1`, the slice `&s[..1]` falls inside the
multi-byte character and panics (modelled as `none`); on an ASCII string
the same code truncates normally. -/
theorem summarize_args_panics_on_multibyte :
    summarizeArgs [237, 149, 156] 1 = none ∧
      summarizeArgs [104, 105, 106] 2 = some [104, 105, 46, 46, 46] := by
  decide

-- ----------------------------------------------------------------------------
-- C2 — framer lemmas and split idempotence
-- ----------------------------------------------------------------------------

theorem replaceCRLF_cons_ne (c : Char) (rest : List Char)
    (h : ¬ (c = '\r' ∧ rest.head? = some '\n')) :
    replaceCRLF (c :: rest) = c :: replaceCRLF rest := by
  rw [replaceCRLF.eq_def]
  split
  · simp_all
  · rename_i r heq
    injection heq with h1 h2
    exact absurd ⟨h1, by rw [h2]; rfl⟩ h
  · rename_i c' r hne heq
    injection heq with h1 h2
    rw [h1, h2]

theorem replaceCRLF_append (t1 t2 : List Char)
    (h : t1.getLast? = some '\r' → t2.head? ≠ some '\n') :
    replaceCRLF (t1 ++ t2) = replaceCRLF t1 ++ replaceCRLF t2 := by
  induction t1 using replaceCRLF.induct with
  | case1 => rfl
  | case2 rest ih =>
    have h' : rest.getLast? = some '\r' → t2.head? ≠ some '\n' := by
      intro hr
      apply h
      cases rest with
      | nil => simp at hr
      | cons a l => simpa using hr
    simp only [List.cons_append, replaceCRLF, List.append_eq]
    rw [ih h']
  | case3 c rest hne ih =>
    have h' : rest.getLast? = some '\r' → t2.head? ≠ some '\n' := by
      intro hr
      apply h
      cases rest with
      | nil => simp at hr
      | cons a l => simpa using hr
    have hL : ¬ (c = '\r' ∧ (rest ++ t2).head? = some '\n') := by
      rintro ⟨rfl, hh⟩
      cases rest with
      | nil =>
        exact h (by simp) (by simpa using hh)
      | cons a l =>
        exact hne l rfl (by simpa using hh)
    have hR : ¬ (c = '\r' ∧ rest.head? = some '\n') := by
      rintro ⟨rfl, hh⟩
      cases rest with
      | nil => simp at hh
      | cons a l => exact hne l rfl (by simpa using hh)
    rw [List.cons_append, replaceCRLF_cons_ne c _ hL, replaceCRLF_cons_ne c _ hR,
        ih h']
    simp

theorem splitRecs_cons_ne (c : Char) (rest : List Char)
    (h : ¬ (c = '\n' ∧ rest.head? = some '\n')) :
    splitRecs (c :: rest) =
      (match splitRecs rest with
       | ([], t) => ([], c :: t)
       | (r :: rs', t) => ((c :: r) :: rs', t)) := by
  rw [splitRecs.eq_def]
  split
  · simp_all
  · rename_i r heq
    injection heq with h1 h2
    exact absurd ⟨h1, by rw [h2]; rfl⟩ h
  · rename_i c' r hne heq
    injection heq with h1 h2
    rw [h1, h2]

theorem splitRecs_fst_nil (v : List Char) (h : (splitRecs v).1 = []) :
    (splitRecs v).2 = v := by
  induction v using splitRecs.induct with
  | case1 => rfl
  | case2 rest ih =>
    exact absurd h (by simp [splitRecs])
  | case3 c rest hne t heq ih =>
    simp only [splitRecs, heq]
    have h2 := ih (by rw [heq])
    rw [heq] at h2
    simpa using h2
  | case4 c rest hne t r rs' heq ih =>
    exact absurd h (by simp [splitRecs, heq])

theorem splitRecs_append (b x : List Char) :
    splitRecs (b ++ x) =
      ((splitRecs b).1 ++ (splitRecs ((splitRecs b).2 ++ x)).1,
        (splitRecs ((splitRecs b).2 ++ x)).2) := by
  induction b using splitRecs.induct with
  | case1 => simp [splitRecs]
  | case2 rest ih =>
    simp only [List.cons_append, splitRecs, List.append_eq] at ih ⊢
    rw [ih]
  | case3 c rest hne t heq ih =>
    have ht : t = rest := by
      have h2 := splitRecs_fst_nil rest (by rw [heq])
      rw [heq] at h2
      simpa using h2
    rw [ht] at heq
    have hc : splitRecs (c :: rest) = ([], c :: rest) := by
      have hne2 : ¬ (c = '\n' ∧ rest.head? = some '\n') := by
        rintro ⟨rfl, hh⟩
        cases rest with
        | nil => simp at hh
        | cons a l => exact hne l rfl (by simpa using hh)
      rw [splitRecs_cons_ne c rest hne2, heq]
    -- the would-be separator may straddle the boundary; with no record in
    -- c :: rest both sides reduce to splitRecs (c :: rest ++ x) itself
    rw [hc]
    simp only [List.nil_append, List.cons_append]
  | case4 c rest hne t r rs' heq ih =>
    have hrne : ¬ (c = '\n' ∧ rest.head? = some '\n') := by
      rintro ⟨rfl, hh⟩
      cases rest with
      | nil => rw [show splitRecs [] = ([], []) from rfl] at heq; cases heq
      | cons a l => exact hne l rfl (by simpa using hh)
    have hL : ¬ (c = '\n' ∧ (rest ++ x).head? = some '\n') := by
      rintro ⟨rfl, hh⟩
      cases rest with
      | nil => rw [show splitRecs [] = ([], []) from rfl] at heq; cases heq
      | cons a l => exact hne l rfl (by simpa using hh)
    rw [List.cons_append, splitRecs_cons_ne c _ hL, splitRecs_cons_ne c _ hrne,
        heq, ih, heq]
    simp

theorem findNN_cons_ne (c : Char) (rest : List Char)
    (h : ¬ (c = '\n' ∧ rest.head? = some '\n')) :
    findNN (c :: rest) = (findNN rest).map (· + 1) := by
  rw [findNN.eq_def]
  split
  · rename_i heq
    injection heq with h1 h2
    exact absurd ⟨h1, by rw [h2]; rfl⟩ h
  · rename_i c' r hne heq
    injection heq with h1 h2
    rw [h2]
  · rename_i heq
    cases heq

theorem findNN_none_spec (v : List Char) (h : findNN v = none) :
    splitRecs v = ([], v) := by
  induction v using splitRecs.induct with
  | case1 => rfl
  | case2 rest ih =>
    rw [show findNN ('\n' :: '\n' :: rest) = some 0 from rfl] at h
    cases h
  | case3 c rest hne t heq ih =>
    have hne2 : ¬ (c = '\n' ∧ rest.head? = some '\n') := by
      rintro ⟨rfl, hh⟩
      cases rest with
      | nil => simp at hh
      | cons a l => exact hne l rfl (by simpa using hh)
    rw [findNN_cons_ne c rest hne2] at h
    have hr : findNN rest = none := by
      cases hfr : findNN rest with
      | none => rfl
      | some q => rw [hfr] at h; cases h
    have := ih hr
    rw [heq] at this
    injection this with _ h2
    rw [splitRecs_cons_ne c rest hne2, heq, h2]
  | case4 c rest hne t r rs' heq ih =>
    have hne2 : ¬ (c = '\n' ∧ rest.head? = some '\n') := by
      rintro ⟨rfl, hh⟩
      cases rest with
      | nil => rw [show splitRecs [] = ([], []) from rfl] at heq; cases heq
      | cons a l => exact hne l rfl (by simpa using hh)
    rw [findNN_cons_ne c rest hne2] at h
    have hr : findNN rest = none := by
      cases hfr : findNN rest with
      | none => rfl
      | some q => rw [hfr] at h; cases h
    have := ih hr
    rw [heq] at this
    cases this

theorem findNN_some_spec (v : List Char) (p : Nat) (h : findNN v = some p) :
    splitRecs v =
      ((v.take p) :: (splitRecs (v.drop (p + 2))).1,
        (splitRecs (v.drop (p + 2))).2) := by
  induction v using splitRecs.induct generalizing p with
  | case1 => cases h
  | case2 rest ih =>
    rw [show findNN ('\n' :: '\n' :: rest) = some 0 from rfl] at h
    injection h with h1
    subst h1
    simp [splitRecs]
  | case3 c rest hne t heq ih =>
    have hne2 : ¬ (c = '\n' ∧ rest.head? = some '\n') := by
      rintro ⟨rfl, hh⟩
      cases rest with
      | nil => simp at hh
      | cons a l => exact hne l rfl (by simpa using hh)
    rw [findNN_cons_ne c rest hne2] at h
    cases hfr : findNN rest with
    | none => rw [hfr] at h; cases h
    | some q =>
      have := ih q hfr
      rw [heq] at this
      cases this
  | case4 c rest hne t r rs' heq ih =>
    have hne2 : ¬ (c = '\n' ∧ rest.head? = some '\n') := by
      rintro ⟨rfl, hh⟩
      cases rest with
      | nil => rw [show splitRecs [] = ([], []) from rfl] at heq; cases heq
      | cons a l => exact hne l rfl (by simpa using hh)
    rw [findNN_cons_ne c rest hne2] at h
    cases hfr : findNN rest with
    | none => rw [hfr] at h; cases h
    | some q =>
      rw [hfr] at h
      injection h with h1
      subst h1
      have hspec := ih q hfr
      rw [heq] at hspec
      injection hspec with h1 h2
      injection h1 with h1a h1b
      rw [splitRecs_cons_ne c rest hne2, heq]
      simp only [List.take_succ_cons, List.drop_succ_cons]
      rw [h1a, h1b, h2]

theorem splitRecs_find_spec (v : List Char) :
    splitRecs v =
      (match findNN v with
       | none => ([], v)
       | some p =>
           ((v.take p) :: (splitRecs (v.drop (p + 2))).1,
             (splitRecs (v.drop (p + 2))).2)) := by
  cases hv : findNN v with
  | none => rw [findNN_none_spec v hv]
  | some p => rw [findNN_some_spec v p hv]

theorem normalizeText_append (t1 t2 : List Char)
    (h : t1.getLast? = some '\r' → t2.head? ≠ some '\n') :
    normalizeText (t1 ++ t2) = normalizeText t1 ++ normalizeText t2 := by
  unfold normalizeText
  rw [replaceCRLF_append t1 t2 h, List.map_append]

theorem feed_append (st : SseParserState) (c1 c2 : List Char)
    (h : c1.getLast? = some '\r' → c2.head? ≠ some '\n') :
    (st.feed (c1 ++ c2)).1 = (st.feed c1).1 ++ ((st.feed c1).2.feed c2).1 ∧
      (st.feed (c1 ++ c2)).2 = ((st.feed c1).2.feed c2).2 := by
  unfold SseParserState.feed
  simp only
  rw [normalizeText_append c1 c2 h, ← List.append_assoc,
    splitRecs_append (st.buffer ++ normalizeText c1) (normalizeText c2),
    List.filterMap_append]
  exact ⟨rfl, rfl⟩

/-- C2 amended: feeding a byte stream in two chunks produces the same event
sequence (feeds plus flush) as feeding it whole, PROVIDED the split point
does not separate a `'\r'` from a following `'\n'` (and, implicitly in the
char-level model, falls on a UTF-8 character boundary).  A split between
the two halves of a CRLF pair breaks the equality
(`framer_crlf_split_counterexample`). -/
theorem framer_split_idempotent (c1 c2 : List Char)
    (h : c1.getLast? = some '\r' → c2.head? ≠ some '\n') :
    (SseParserState.new.feed c1).1 ++
        ((SseParserState.new.feed c1).2.feed c2).1 ++
        (((SseParserState.new.feed c1).2.feed c2).2.flush).1 =
      (SseParserState.new.feed (c1 ++ c2)).1 ++
        ((SseParserState.new.feed (c1 ++ c2)).2.flush).1 := by
  have hf := feed_append SseParserState.new c1 c2 h
  rw [hf.1, hf.2, List.append_assoc]

/-- Witness for `framer_split_idempotent` at a concrete split. -/
theorem framer_split_idempotent_witness :
    (SseParserState.new.feed "data: a\nda".toList).1 ++
        ((SseParserState.new.feed "data: a\nda".toList).2.feed
          "ta: b\n\n".toList).1 ++
        (((SseParserState.new.feed "data: a\nda".toList).2.feed
          "ta: b\n\n".toList).2.flush).1 =
      (SseParserState.new.feed
          ("data: a\nda".toList ++ "ta: b\n\n".toList)).1 ++
        ((SseParserState.new.feed
          ("data: a\nda".toList ++ "ta: b\n\n".toList)).2.flush).1 :=
  framer_split_idempotent "data: a\nda".toList "ta: b\n\n".toList (by decide)

/-- C2 counterexample: splitting exactly between the `'\r'` and `'\n'` of a
CRLF pair changes the framed events — each half normalizes its bare newline
separately, manufacturing a `"\n\n"` record terminator that the unsplit
input does not contain.  Split: two events (`x` then `y`); whole: one
event (`y`). -/
theorem framer_crlf_split_counterexample :
    ¬ ((SseParserState.new.feed "data: x\r".toList).1 ++
        ((SseParserState.new.feed "data: x\r".toList).2.feed
          "\ndata: y\n\n".toList).1 ++
        (((SseParserState.new.feed "data: x\r".toList).2.feed
          "\ndata: y\n\n".toList).2.flush).1 =
      (SseParserState.new.feed
          ("data: x\r".toList ++ "\ndata: y\n\n".toList)).1 ++
        ((SseParserState.new.feed
          ("data: x\r".toList ++ "\ndata: y\n\n".toList)).2.flush).1) := by
  decide

-- ----------------------------------------------------------------------------
-- C10 — parse_raw_event keeps only the last event:/data: line
-- ----------------------------------------------------------------------------

theorem isPrefixOf_head {a : Char} {as l : List Char}
    (h : (a :: as).isPrefixOf l = true) : l.head? = some a := by
  cases l with
  | nil => simp [List.isPrefixOf] at h
  | cons b bs =>
    simp only [List.isPrefixOf, Bool.and_eq_true, beq_iff_eq] at h
    rw [h.1]
    rfl

theorem event_line_not_data (l : List Char) (v : List Char)
    (h : stripPref "event: ".toList l = some v) : lineDataValue l = none := by
  have hp : ("event: ".toList).isPrefixOf l = true := by
    unfold stripPref at h
    by_cases hc : ("event: ".toList).isPrefixOf l
    · exact hc
    · rw [if_neg hc] at h; cases h
  have hhead : l.head? = some 'e' := by
    rw [show "event: ".toList = 'e' :: "vent: ".toList from rfl] at hp
    exact isPrefixOf_head hp
  have hd1 : ¬ (("data: ".toList).isPrefixOf l = true) := by
    intro hq
    rw [show "data: ".toList = 'd' :: "ata: ".toList from rfl] at hq
    have := isPrefixOf_head hq
    rw [hhead] at this
    cases this
  have hd2 : ¬ (("data:".toList).isPrefixOf l = true) := by
    intro hq
    rw [show "data:".toList = 'd' :: "ata:".toList from rfl] at hq
    have := isPrefixOf_head hq
    rw [hhead] at this
    cases this
  have hd2f : ("data:".toList).isPrefixOf l = false := by
    rw [← Bool.not_eq_true]; exact hd2
  unfold lineDataValue stripPref
  rw [if_neg hd1]
  rw [hd2f]
  rfl

theorem foldl_parseLine (ls : List (List Char)) :
    ∀ st : List Char × List Char,
      ls.foldl parseLine st =
        ((ls.filterMap lineEventValue).getLastD st.1,
          (ls.filterMap lineDataValue).getLastD st.2) := by
  induction ls with
  | nil => intro st; simp [List.getLastD]
  | cons l ls ih =>
    intro st
    rw [List.foldl_cons, ih]
    cases hev : stripPref "event: ".toList l with
    | some v =>
      have hdn := event_line_not_data l v hev
      have hpl : parseLine st l = (trimChars v, st.2) := by
        unfold parseLine
        rw [hev]
      rw [hpl]
      have hlev : lineEventValue l = some (trimChars v) := by
        unfold lineEventValue
        rw [hev]
        rfl
      rw [List.filterMap_cons_some hlev, List.filterMap_cons_none hdn,
        List.getLastD_cons]
    | none =>
      have hlev : lineEventValue l = none := by
        unfold lineEventValue
        rw [hev]
        rfl
      cases hdt : stripPref "data: ".toList l with
      | some v =>
        have hpl : parseLine st l = (st.1, v) := by
          unfold parseLine
          rw [hev, hdt]
        have hldv : lineDataValue l = some v := by
          unfold lineDataValue
          rw [hdt]
        rw [hpl]
        rw [List.filterMap_cons_some hldv, List.filterMap_cons_none hlev,
          List.getLastD_cons]
      | none =>
        by_cases hd5 : ("data:".toList).isPrefixOf l = true
        · have hpl : parseLine st l = (st.1, l.drop 5) := by
            unfold parseLine
            rw [hev, hdt]
            rw [if_pos hd5]
          have hldv : lineDataValue l = some (l.drop 5) := by
            unfold lineDataValue
            rw [hdt]
            rw [if_pos hd5]
          rw [hpl]
          rw [List.filterMap_cons_some hldv, List.filterMap_cons_none hlev,
            List.getLastD_cons]
        · have hpl : parseLine st l = st := by
            unfold parseLine
            rw [hev, hdt]
            rw [if_neg hd5]
          have hldv : lineDataValue l = none := by
            unfold lineDataValue
            rw [hdt]
            rw [if_neg hd5]
          rw [hpl]
          rw [List.filterMap_cons_none hldv, List.filterMap_cons_none hlev]

/-- C10: within one record, later `event:`/`data:` lines overwrite earlier
ones — `parse_raw_event` keeps exactly the LAST value of each kind (no
newline concatenation of multiple data lines). -/
theorem parse_raw_event_last_wins (raw : List Char) :
    parseRawEvent raw =
      (let et := ((rustLines raw).filterMap lineEventValue).getLastD []
       let d := ((rustLines raw).filterMap lineDataValue).getLastD []
       if et = [] ∧ d = [] then none
       else some ⟨String.mk et, String.mk d⟩) := by
  unfold parseRawEvent
  rw [foldl_parseLine]

-- ----------------------------------------------------------------------------
-- C5 — Chat-Completions decoder
-- ----------------------------------------------------------------------------

/-- C5 counterexample: on an event whose data carries BOTH a non-empty
`choices[0].delta.content` and a non-null `choices[0].finish_reason`, the
decoder returns ONLY the `TextDelta` — its `Option` return type admits one
action per event, and the content branch returns before the finish-reason
check, so no `MessageComplete` is emitted for that event. -/
theorem chat_decoder_drops_finish_with_content :
    parseOpenaiChatSse (.parsed chatBothEvent) =
        some (.textDelta 0 "x") ∧
      (parseOpenaiChatSse (.parsed chatBothEvent)).any isMessageComplete =
        false := by
  decide

/-- C5 amended: `"[DONE]"` maps to `MessageComplete EndTurn`; an event with
non-empty content yields ONLY `TextDelta { index = 0, text }` (any
finish_reason in the same event is ignored); the finish_reason mapping
(`stop` → EndTurn, `length` → MaxTokens, other → Unknown) fires only when
content is absent or empty. -/
theorem chat_decoder_behaviour :
    (parseOpenaiChatSse .done = some (.messageComplete .endTurn)) ∧
    (∀ j choice delta content,
      j.getObj "error" = none →
      (j.getObj "choices").bind (fun c => c.getIdx 0) = some choice →
      choice.getObj "delta" = some delta →
      (delta.getObj "content").bind Json.asStr = some content →
      content.isEmpty = false →
      parseOpenaiChatSse (.parsed j) = some (.textDelta 0 content)) ∧
    (∀ j choice delta finish,
      j.getObj "error" = none →
      (j.getObj "choices").bind (fun c => c.getIdx 0) = some choice →
      choice.getObj "delta" = some delta →
      ((delta.getObj "content").bind Json.asStr = none ∨
        (delta.getObj "content").bind Json.asStr = some "") →
      (choice.getObj "finish_reason").bind Json.asStr = some finish →
      parseOpenaiChatSse (.parsed j) =
        some (.messageComplete (chatFinishMap finish))) := by
  refine ⟨rfl, ?_, ?_⟩
  · intro j choice delta content herr hch hdel hcon hne
    simp only [parseOpenaiChatSse, herr, hch, hdel, hcon]
    simp [hne]
  · intro j choice delta finish herr hch hdel hcon hfin
    rcases hcon with hnone | hempty
    · simp only [parseOpenaiChatSse, herr, hch, hdel, hnone, hfin]
    · simp only [parseOpenaiChatSse, herr, hch, hdel, hempty, hfin]
      simp
      rfl

/-- Witness for `chat_decoder_behaviour`: the `[DONE]` sentinel, a pure
content chunk, and a final `finish_reason = "length"` chunk. -/
theorem chat_decoder_behaviour_witness :
    (parseOpenaiChatSse .done = some (.messageComplete .endTurn)) ∧
    (parseOpenaiChatSse (.parsed chatBothEvent) =
      some (.textDelta 0 "x")) ∧
    (parseOpenaiChatSse (.parsed chatFinishEvent) =
      some (.messageComplete (chatFinishMap "length"))) :=
  ⟨chat_decoder_behaviour.1,
   chat_decoder_behaviour.2.1 chatBothEvent
     (.obj [("delta", .obj [("content", .str "x")]),
            ("finish_reason", .str "stop")])
     (.obj [("content", .str "x")]) "x" rfl rfl rfl rfl rfl,
   chat_decoder_behaviour.2.2 chatFinishEvent
     (.obj [("delta", .obj []), ("finish_reason", .str "length")])
     (.obj []) "length" rfl rfl rfl (Or.inl rfl) rfl⟩

-- ----------------------------------------------------------------------------
-- C6 — retry exhaustion degrades gracefully
-- ----------------------------------------------------------------------------

theorem retry_all_fail (provider : String)
    (hp : provider = "openai" ∨ provider = "gemini" ∨ provider = "claude")
    (attempts : Nat → Except String ParticipantSession) (ef : Nat → String)
    (h : ∀ k, k < MAX_RETRIES → attempts k = .error (ef k)) :
    runParticipantWithRetry provider attempts =
      .ok (exhaustedSession provider (ef 2)) := by
  have h0 := h 0 (by norm_num [MAX_RETRIES])
  have h1 := h 1 (by norm_num [MAX_RETRIES])
  have h2 := h 2 (by norm_num [MAX_RETRIES])
  rcases hp with hp | hp | hp <;> subst hp <;>
    simp [runParticipantWithRetry, retryGo.eq_def, h0, h1, h2,
      exhaustedSession, MAX_RETRIES]

/-- C6: when all three attempts of every participant fail, each
`run_participant_with_retry` still returns `Ok` with a finalized failed
session (success = false, non-empty error) instead of propagating the
error, so the round's `participant_sessions` vector keeps all three
providers in order. -/
theorem retry_exhaustion_graceful
    (a1 a2 a3 : Nat → Except String ParticipantSession)
    (e1f e2f e3f : Nat → String)
    (h1 : ∀ k, k < MAX_RETRIES → a1 k = .error (e1f k))
    (h2 : ∀ k, k < MAX_RETRIES → a2 k = .error (e2f k))
    (h3 : ∀ k, k < MAX_RETRIES → a3 k = .error (e3f k))
    (hne1 : e1f 2 ≠ "") (hne2 : e2f 2 ≠ "") (hne3 : e3f 2 ≠ "") :
    buildIterationSessions
        (runParticipantWithRetry "openai" a1)
        (runParticipantWithRetry "gemini" a2)
        (runParticipantWithRetry "claude" a3) =
      .ok [exhaustedSession "openai" (e1f 2),
           exhaustedSession "gemini" (e2f 2),
           exhaustedSession "claude" (e3f 2)] ∧
    (∀ sessions, buildIterationSessions
        (runParticipantWithRetry "openai" a1)
        (runParticipantWithRetry "gemini" a2)
        (runParticipantWithRetry "claude" a3) = .ok sessions →
      sessions.map (fun s => s.provider) = ["openai", "gemini", "claude"] ∧
      sessions.length = 3 ∧
      ∀ s ∈ sessions, s.success = false ∧
        ∃ m, s.error = some m ∧ m ≠ "") := by
  have r1 := retry_all_fail "openai" (by left; rfl) a1 e1f h1
  have r2 := retry_all_fail "gemini" (by right; left; rfl) a2 e2f h2
  have r3 := retry_all_fail "claude" (by right; right; rfl) a3 e3f h3
  have hb : buildIterationSessions
      (runParticipantWithRetry "openai" a1)
      (runParticipantWithRetry "gemini" a2)
      (runParticipantWithRetry "claude" a3) =
    .ok [exhaustedSession "openai" (e1f 2),
         exhaustedSession "gemini" (e2f 2),
         exhaustedSession "claude" (e3f 2)] := by
    rw [buildIterationSessions, r1, r2, r3]
    rfl
  refine ⟨hb, ?_⟩
  intro sessions hs
  rw [hb] at hs
  injection hs with hs
  subst hs
  refine ⟨rfl, rfl, ?_⟩
  intro s hsm
  simp only [List.mem_cons, List.not_mem_nil, or_false] at hsm
  rcases hsm with rfl | rfl | rfl
  · exact ⟨rfl, e1f 2, rfl, hne1⟩
  · exact ⟨rfl, e2f 2, rfl, hne2⟩
  · exact ⟨rfl, e3f 2, rfl, hne3⟩

/-- Witness for `retry_exhaustion_graceful` with concrete always-failing
providers. -/
theorem retry_exhaustion_graceful_witness :
    buildIterationSessions
        (runParticipantWithRetry "openai" (fun _ => .error "boom1"))
        (runParticipantWithRetry "gemini" (fun _ => .error "boom2"))
        (runParticipantWithRetry "claude" (fun _ => .error "boom3")) =
      .ok [exhaustedSession "openai" "boom1",
           exhaustedSession "gemini" "boom2",
           exhaustedSession "claude" "boom3"] :=
  (retry_exhaustion_graceful
    (fun _ => .error "boom1") (fun _ => .error "boom2")
    (fun _ => .error "boom3")
    (fun _ => "boom1") (fun _ => "boom2") (fun _ => "boom3")
    (fun _ _ => rfl) (fun _ _ => rfl) (fun _ _ => rfl)
    (by decide) (by decide) (by decide)).1

theorem geminiProcessPart_actions (i : Nat) (p : Json) (st : GeminiSseState) :
    ∀ a ∈ (geminiProcessPart i p st).1, mcProj a = none := by
  intro a ha
  unfold geminiProcessPart at ha
  split at ha
  rename_i textActs st1 heq1
  have hta : ∀ b ∈ textActs, mcProj b = none := by
    intro b hb
    split at heq1
    · split at heq1
      · injection heq1 with h1 h2
        subst h1
        simp only [List.mem_singleton] at hb
        subst hb
        rfl
      · injection heq1 with h1 h2
        subst h1
        simp at hb
    · injection heq1 with h1 h2
      subst h1
      simp at hb
  split at ha
  · simp only [] at ha
    split at ha
    · simp only [List.mem_append] at ha
      rcases ha with hb | hb
      · exact hta a hb
      · simp only [List.mem_cons, List.not_mem_nil, or_false] at hb
        rcases hb with rfl | rfl <;> rfl
    · exact hta a ha
  · exact hta a ha

theorem geminiProcessPart_no_mc (i : Nat) (p : Json) (st : GeminiSseState) :
    ((geminiProcessPart i p st).1).filterMap mcProj = [] :=
  List.filterMap_eq_nil_iff.mpr (geminiProcessPart_actions i p st)

theorem geminiProcessParts_no_mc (ps : List Json) :
    ∀ (i : Nat) (st : GeminiSseState),
      ((geminiProcessParts i ps st).1).filterMap mcProj = [] := by
  induction ps with
  | nil => intro i st; rfl
  | cons p rest ih =>
    intro i st
    unfold geminiProcessParts
    rcases h1 : geminiProcessPart i p st with ⟨acts1, st1⟩
    simp only [List.filterMap_append]
    have e1 : acts1.filterMap mcProj = [] := by
      have h := geminiProcessPart_no_mc i p st
      rw [h1] at h
      exact h
    simp [e1, ih]

theorem mcProj_of_contentBlockStop_map (g : Nat → Nat) (l : List Nat) :
    (l.map (fun p => StreamAction.contentBlockStop (g p))).filterMap mcProj
      = [] := by
  apply List.filterMap_eq_nil_iff.mpr
  intro x hx
  rcases List.mem_map.mp hx with ⟨p, _, rfl⟩
  rfl

theorem mcProj_of_fc_stops (m : List (Nat × String)) (pti : List (Nat × Nat)) :
    (m.filterMap (fun pv => (pti.lookup pv.1).map
      (fun i => StreamAction.contentBlockStop i))).filterMap mcProj = [] := by
  apply List.filterMap_eq_nil_iff.mpr
  intro x hx
  rcases List.mem_filterMap.mp hx with ⟨pv, _, hpv⟩
  rcases Option.map_eq_some'.mp hpv with ⟨i, _, rfl⟩
  rfl

/-- C4: on any event that parses, carries no error field, has a first
candidate, and a non-empty `finishReason`, `parse_gemini_sse` emits exactly
one `MessageComplete`; its stop reason is `ToolUse` whenever
`known_function_calls` (after this event's parts) is non-empty, and
otherwise the source's finish-reason mapping (`STOP` → EndTurn,
`MAX_TOKENS` → MaxTokens, the four blocked reasons → EndTurn, other →
Unknown). -/
theorem gemini_finish_one_message_complete
    (d candidate : Json) (st : GeminiSseState)
    (herr : d.getObj "error" = none)
    (hcand : (d.getObj "candidates").bind (fun c => c.getIdx 0) =
      some candidate)
    (hfin : (((candidate.getObj "finishReason").bind Json.asStr).getD
      "").isEmpty = false) :
    ((parseGeminiSse (some d) st).1).filterMap mcProj =
      [if (parseGeminiSse (some d) st).2.known_function_calls ≠ [] then
         StopReason.toolUse
       else geminiFinishMap
         (((candidate.getObj "finishReason").bind Json.asStr).getD "")] := by
  simp only [parseGeminiSse, herr, hcand, hfin, Bool.false_eq_true,
    not_false_eq_true, if_true]
  rcases hp : ((candidate.getObj "content").bind
      (fun c => c.getObj "parts")).bind Json.asArr with _ | ps
  · simp only [hp]
    simp only [List.filterMap_append, mcProj_of_contentBlockStop_map,
      mcProj_of_fc_stops]
    simp [mcProj]
  · simp only [hp]
    simp only [List.filterMap_append, geminiProcessParts_no_mc,
      mcProj_of_contentBlockStop_map, mcProj_of_fc_stops]
    simp [mcProj]

theorem lookup_alistInsert_self (k : Nat) (v : α) (m : List (Nat × α)) :
    (alistInsert k v m).lookup k = some v := by
  induction m with
  | nil => simp [alistInsert, List.lookup]
  | cons kv rest ih =>
    rcases kv with ⟨k1, v1⟩
    simp only [alistInsert]
    split
    · rename_i h
      subst h
      simp [List.lookup]
    · rename_i h
      have hne : (k == k1) = false := by
        rw [beq_eq_false_iff_ne]
        exact fun hh => h hh.symm
      simp only [List.lookup, hne]
      exact ih

theorem lookup_alistInsert_ne (k : Nat) (v : α) (m : List (Nat × α))
    (p : Nat) (h : p ≠ k) :
    (alistInsert k v m).lookup p = m.lookup p := by
  have hpk : (p == k) = false := beq_eq_false_iff_ne.mpr h
  induction m with
  | nil =>
    simp only [alistInsert, List.lookup, hpk]
  | cons kv rest ih =>
    rcases kv with ⟨k1, v1⟩
    simp only [alistInsert]
    split
    · rename_i hk
      subst hk
      simp only [List.lookup, hpk]
    · simp only [List.lookup]
      cases hb : p == k1 with
      | true => rfl
      | false => exact ih

theorem GeminiStep.refl (st : GeminiSseState) : GeminiStep st st :=
  ⟨le_refl _, fun _ _ h => h, fun _ _ h => Or.inl h, fun h => h⟩

theorem GeminiStep.trans {s1 s2 s3 : GeminiSseState}
    (h12 : GeminiStep s1 s2) (h23 : GeminiStep s2 s3) : GeminiStep s1 s3 := by
  obtain ⟨n12, k12, p12, i12⟩ := h12
  obtain ⟨n23, k23, p23, i23⟩ := h23
  refine ⟨le_trans n12 n23, fun p v h => k23 p v (k12 p v h), ?_,
    fun h => i23 (i12 h)⟩
  intro p i h
  rcases p23 p i h with h2 | h2
  · exact p12 p i h2
  · exact Or.inr (le_trans n12 h2)

theorem gemini_step_text_alloc (st : GeminiSseState) (i : Nat) :
    GeminiStep st
      { st with
          part_to_index := alistInsert i st.next_index st.part_to_index,
          text_parts := setInsert i st.text_parts,
          next_index := st.next_index + 1 } := by
  refine ⟨Nat.le_succ _, fun _ _ h => h, ?_, ?_⟩
  · intro p j h
    by_cases hp : p = i
    · subst hp
      rw [lookup_alistInsert_self] at h
      injection h with h
      exact Or.inr (le_of_eq h)
    · rw [lookup_alistInsert_ne _ _ _ _ hp] at h
      exact Or.inl h
  · intro hinv p j h
    by_cases hp : p = i
    · subst hp
      rw [lookup_alistInsert_self] at h
      injection h with h
      simp [← h]
    · rw [lookup_alistInsert_ne _ _ _ _ hp] at h
      exact Nat.lt_succ_of_lt (hinv p j h)

theorem gemini_step_fc_alloc (st : GeminiSseState) (i : Nat) (id : String)
    (ts' : List (Nat × String))
    (hk : st.known_function_calls.lookup i = none) :
    GeminiStep st
      { st with
          known_function_calls := alistInsert i id st.known_function_calls,
          part_to_index := alistInsert i st.next_index st.part_to_index,
          thought_signatures := ts',
          next_index := st.next_index + 1 } := by
  refine ⟨Nat.le_succ _, ?_, ?_, ?_⟩
  · intro p v h
    by_cases hp : p = i
    · subst hp
      rw [hk] at h
      cases h
    · rw [lookup_alistInsert_ne _ _ _ _ hp]
      exact h
  · intro p j h
    by_cases hp : p = i
    · subst hp
      rw [lookup_alistInsert_self] at h
      injection h with h
      exact Or.inr (le_of_eq h)
    · rw [lookup_alistInsert_ne _ _ _ _ hp] at h
      exact Or.inl h
  · intro hinv p j h
    by_cases hp : p = i
    · subst hp
      rw [lookup_alistInsert_self] at h
      injection h with h
      simp [← h]
    · rw [lookup_alistInsert_ne _ _ _ _ hp] at h
      exact Nat.lt_succ_of_lt (hinv p j h)

theorem geminiProcessPart_step (i : Nat) (p : Json) (st : GeminiSseState) :
    GeminiStep st (geminiProcessPart i p st).2 := by
  unfold geminiProcessPart
  split
  rename_i textActs st1 heq1
  have h1 : GeminiStep st st1 := by
    split at heq1
    · split at heq1
      · split at heq1
        · injection heq1 with ha hb
          rw [← hb]
          exact gemini_step_text_alloc st i
        · injection heq1 with ha hb
          rw [← hb]
          exact GeminiStep.refl st
      · injection heq1 with ha hb
        rw [← hb]
        exact GeminiStep.refl st
    · injection heq1 with ha hb
      rw [← hb]
      exact GeminiStep.refl st
  split
  · rename_i fc hfc
    simp only []
    split
    · rename_i hguard
      exact h1.trans (gemini_step_fc_alloc st1 i (freshCallId st1.next_index)
        _ hguard.2)
    · exact h1
  · exact h1

theorem geminiProcessParts_step (ps : List Json) :
    ∀ (i : Nat) (st : GeminiSseState),
      GeminiStep st (geminiProcessParts i ps st).2 := by
  induction ps with
  | nil => intro i st; exact GeminiStep.refl st
  | cons p rest ih =>
    intro i st
    unfold geminiProcessParts
    rcases h1 : geminiProcessPart i p st with ⟨acts1, st1⟩
    have s1 : GeminiStep st st1 := by
      have h := geminiProcessPart_step i p st
      rw [h1] at h
      exact h
    rcases h2 : geminiProcessParts (i + 1) rest st1 with ⟨acts2, st2⟩
    have s2 : GeminiStep st1 st2 := by
      have h := ih (i + 1) st1
      rw [h2] at h
      exact h
    simp only [h2]
    exact s1.trans s2

theorem parseGeminiSse_step (data : Option Json) (st : GeminiSseState) :
    GeminiStep st (parseGeminiSse data st).2 := by
  unfold parseGeminiSse
  split
  · exact GeminiStep.refl st
  · split
    · exact GeminiStep.refl st
    · split
      · exact GeminiStep.refl st
      · rename_i d hde candidate hcand
        rcases hp : ((candidate.getObj "content").bind
            (fun c => c.getObj "parts")).bind Json.asArr with _ | ps
        · simp only [hp]
          split <;> exact GeminiStep.refl st
        · simp only [hp]
          rcases hgp : geminiProcessParts 0 ps st with ⟨acts, st1⟩
          have s1 : GeminiStep st st1 := by
            have h := geminiProcessParts_step ps 0 st
            rw [hgp] at h
            exact h
          split <;> exact s1

/-- Witness for `gemini_finish_one_message_complete` at a final
`finishReason = "STOP"` chunk on a fresh state. -/
theorem gemini_finish_one_message_complete_witness :
    ((parseGeminiSse (some geminiStopEvent) GeminiSseState.new).1).filterMap
        mcProj =
      [if (parseGeminiSse (some geminiStopEvent)
            GeminiSseState.new).2.known_function_calls ≠ [] then
         StopReason.toolUse
       else geminiFinishMap
         ((((Json.obj [("finishReason", Json.str "STOP")]).getObj
             "finishReason").bind Json.asStr).getD "")] :=
  gemini_finish_one_message_complete geminiStopEvent
    (.obj [("finishReason", .str "STOP")]) GeminiSseState.new rfl rfl rfl

-- ----------------------------------------------------------------------------
-- C7 — Gemini state monotonicity
-- ----------------------------------------------------------------------------

/-- C7 counterexample: a part ordinal first seen as a text part IS remapped
in `part_to_index` when a later event delivers a `functionCall` at the same
ordinal — the guard checks `known_function_calls`, not `part_to_index`.
After `geminiTextEvent`, part 0 maps to index 0; after `geminiFnEvent` on
the same state, part 0 maps to index 1. -/
theorem gemini_part_to_index_remapped :
    ((parseGeminiSse (some geminiTextEvent)
        GeminiSseState.new).2.part_to_index.lookup 0 = some 0) ∧
      ((parseGeminiSse (some geminiFnEvent)
          (parseGeminiSse (some geminiTextEvent)
            GeminiSseState.new).2).2.part_to_index.lookup 0 = some 1) := by
  decide

/-- C7 amended: across any decoder step, the allocation counter is
monotone and freshly allocated indices sit at or above the old counter
(hence strictly above every previously assigned index, so allocations are
strictly increasing); `known_function_calls` entries are never changed once
present.  (`part_to_index` entries, by contrast, CAN be remapped when the
same part ordinal later matches the other part kind —
`gemini_part_to_index_remapped`.) -/
theorem gemini_state_monotonic (data : Option Json) (st : GeminiSseState)
    (hinv : GeminiInv st) :
    GeminiInv (parseGeminiSse data st).2 ∧
      st.next_index ≤ (parseGeminiSse data st).2.next_index ∧
      (∀ p v, st.known_function_calls.lookup p = some v →
        (parseGeminiSse data st).2.known_function_calls.lookup p = some v) ∧
      (∀ p i, (parseGeminiSse data st).2.part_to_index.lookup p = some i →
        st.part_to_index.lookup p = some i ∨ st.next_index ≤ i) := by
  obtain ⟨hn, hk, hp, hi⟩ := parseGeminiSse_step data st
  exact ⟨hi hinv, hn, hk, hp⟩

/-- Witness for `gemini_state_monotonic` at a concrete event on the fresh
state. -/
theorem gemini_state_monotonic_witness :
    GeminiInv (parseGeminiSse (some geminiTextEvent)
        GeminiSseState.new).2 ∧
      GeminiSseState.new.next_index ≤
        (parseGeminiSse (some geminiTextEvent)
          GeminiSseState.new).2.next_index ∧
      (∀ p v,
        GeminiSseState.new.known_function_calls.lookup p = some v →
        (parseGeminiSse (some geminiTextEvent)
          GeminiSseState.new).2.known_function_calls.lookup p = some v) ∧
      (∀ p i,
        (parseGeminiSse (some geminiTextEvent)
          GeminiSseState.new).2.part_to_index.lookup p = some i →
        GeminiSseState.new.part_to_index.lookup p = some i ∨
          GeminiSseState.new.next_index ≤ i) :=
  gemini_state_monotonic (some geminiTextEvent) GeminiSseState.new
    (fun _ _ h => nomatch h)

end AIProxy
